import Mathlib

/-!
# Verification of the bmtc-gtfs schedule synthesis and fare-stage inference core

This file gives a shallow embedding, in Lean 4, of the algorithmic core of
`scripts/gtfs.py` from the Vonter/bmtc-gtfs repository:

* the fare-stage inferencer `identify_fare_stages`;
* the trip time synthesizer inside `add_trips` (distance pass, proportional /
  minimum-speed time allocation, and the rescale step);
* the schedule cleaner `cleanup_trips`;
* the fare attribute / fare rule construction in `add_fares`;
* the short-name normalisation in `GTFSWriter.add_route`.

Python floats are modelled by `ℚ` (the arithmetic in the claims concerns exact
algebraic identities), Python strings by `String` or `List Char`, dictionaries
by association lists or by functions into `Option`, and `datetime` values by a
rational number of seconds since midnight.  Theorems about each claim follow
the definitions.
-/

/-- Pointwise update of a dictionary modelled as a function into `Option`.
`updMap m k v` is the Python assignment `m[k] = v` (with `v = some x`). -/
def updMap {α β : Type} [DecidableEq α] (m : α → Option β) (k : α) (v : Option β) :
    α → Option β :=
  fun x => if x = k then v else m x

@[simp] theorem updMap_same {α β : Type} [DecidableEq α] (m : α → Option β) (k : α)
    (v : Option β) : updMap m k v k = v := by
  simp [updMap]

@[simp] theorem updMap_ne {α β : Type} [DecidableEq α] (m : α → Option β) (k : α)
    (v : Option β) {x : α} (h : x ≠ k) : updMap m k v x = m x := by
  simp [updMap, h]

/-! ## Fare stage inference (`identify_fare_stages`, gtfs.py lines 640-691) -/

/-- The mutable state of the loop in `identify_fare_stages`: the `stages`
dictionary (stop id → stage number), the `stage_boundaries` dictionary
(stage number → first stop of the stage), the `max_fares` dictionary
(stop id → highest fare seen) and the `current_stage` counter. -/
structure FareState where
  stages : String → Option Nat
  boundaries : Nat → Option String
  max_fares : String → Option ℚ
  current_stage : Nat

/-- One iteration of the loop body of `identify_fare_stages` for the pair
(`prev`, `cur`) = (`route_stops[i-1]`, `route_stops[i]`).  Mirrors the source:
if the fare for the pair is known, `max_fares[current_stop]` is updated first
and the new-stage test `current_fare > max_fares.get(prev_stop, 0.0)` reads the
dictionary after that update; otherwise the stop inherits the previous stop's
stage and max fare. -/
def fare_step (f : String → String → Option ℚ) (st : FareState) (prev cur : String) :
    FareState :=
  match f prev cur with
  | some current_fare =>
    let mf := updMap st.max_fares cur (some (max ((st.max_fares prev).getD 0) current_fare))
    if (mf prev).getD 0 < current_fare then
      { stages := updMap st.stages cur (some (st.current_stage + 1))
        boundaries := updMap st.boundaries (st.current_stage + 1) (some cur)
        max_fares := mf
        current_stage := st.current_stage + 1 }
    else
      { stages := updMap st.stages cur (st.stages prev)
        boundaries := st.boundaries
        max_fares := mf
        current_stage := st.current_stage }
  | none =>
    { stages := updMap st.stages cur (st.stages prev)
      boundaries := st.boundaries
      max_fares := updMap st.max_fares cur (some ((st.max_fares prev).getD 0))
      current_stage := st.current_stage }

/-- The loop `for i in range(1, len(route_stops))` of `identify_fare_stages`,
processing the remaining stops with `prev` the stop processed last. -/
def identify_go (f : String → String → Option ℚ) :
    FareState → String → List String → FareState
  | st, _, [] => st
  | st, prev, cur :: rest => identify_go f (fare_step f st prev cur) cur rest

/-- The state before the loop of `identify_fare_stages` (gtfs.py 655-663):
the first stop is in stage 0, bounds stage 0, and has max fare 0. -/
def initialFareState (s0 : String) : FareState :=
  { stages := updMap (fun _ => none) s0 (some 0)
    boundaries := updMap (fun _ => none) 0 (some s0)
    max_fares := updMap (fun _ => none) s0 (some 0)
    current_stage := 0 }

/-- `identify_fare_stages(stop_pair_fares, route_stops)` (gtfs.py 640-691).
Returns the pair of the `stages` and `stage_boundaries` dictionaries.  A list
with fewer than 2 stops returns two empty dictionaries, matching
`if not route_stops or len(route_stops) < 2: return {}, {}`. -/
def identify_fare_stages (f : String → String → Option ℚ) (route_stops : List String) :
    (String → Option Nat) × (Nat → Option String) :=
  match route_stops with
  | s0 :: s1 :: rest =>
    let fin := identify_go f (initialFareState s0) s0 (s1 :: rest)
    (fin.stages, fin.boundaries)
  | _ => (fun _ => none, fun _ => none)

/-- The fare map of the spec's worked example:
fares {(S1,S2): 10.0, (S1,S3): 10.0, (S1,S4): 15.0}. -/
def exampleFares : String → String → Option ℚ := fun a b =>
  if a = "S1" ∧ b = "S2" then some 10
  else if a = "S1" ∧ b = "S3" then some 10
  else if a = "S1" ∧ b = "S4" then some 15
  else none

/-! ## Trip time synthesizer (`add_trips`, gtfs.py lines 446-528) -/

/-- `MAX_SPEED_KMH = 75.0` (gtfs.py line 349). -/
def MAX_SPEED_KMH : ℚ := 75

/-- A stop's coordinates as read from the stops JSON document.  `none` models a
pair whose lookup or conversion fails in the source (`KeyError` on a missing
`centerlat`/`centerlong` key, or `ValueError` from `float(...)`). -/
abbrev StopCoords := Option (ℚ × ℚ)

/-- The first pass of `add_trips` (gtfs.py 455-471): the list of consecutive
inter-stop distances.  `hav` stands for the `haversine_distance` routine
(gtfs.py 316-331), whose trigonometric value on valid coordinates is irrelevant
to the claims proved here; a failing pair gets the fixed default of 0.5 km. -/
def compute_distances (hav : ℚ → ℚ → ℚ → ℚ → ℚ) : List StopCoords → List ℚ
  | a :: b :: rest =>
    (match a, b with
     | some pa, some pb => hav pa.1 pa.2 pb.1 pb.2
     | _, _ => 1/2) :: compute_distances hav (b :: rest)
  | _ => []

/-- Allocated time of one segment (gtfs.py 484-497): the maximum of the
proportional share `duration * (distance_km / total_distance)` (or an equal
`duration / len(distances)` split when the total distance is not positive) and
the minimum-speed floor `distance_km / MAX_SPEED_KMH * 3600` seconds. -/
def segment_time (duration total_distance : ℚ) (num_segments : Nat) (distance_km : ℚ) : ℚ :=
  let min_time_seconds := distance_km / MAX_SPEED_KMH * 3600
  let prop_time :=
    if 0 < total_distance then duration * (distance_km / total_distance)
    else duration / num_segments
  max prop_time min_time_seconds

/-- One record of the in-loop `stop_times` list of `add_trips`: stop id,
1-based stop sequence, and the timestamp in seconds since midnight. -/
structure TripStopTime where
  stop_id : String
  stop_sequence : Nat
  time : ℚ
deriving DecidableEq, Repr

/-- The provisional per-stop timestamps (gtfs.py 448, 484-509): starting from
`start_time`, each segment advances `current_time` by its allocated time. -/
def provisional_times (distances : List ℚ) (start_time duration : ℚ) : List ℚ :=
  distances.scanl
    (fun t d => t + segment_time duration distances.sum distances.length d) start_time

/-- The per-trip stop-time synthesis of `add_trips` (gtfs.py 446-528): builds
the provisional entries (first stop at `start_time`, then one entry per
segment), and, if the provisional final time exceeds
`end_time = start_time + duration`, rescales every entry except the first by
`scale_factor = duration / actual_duration`. -/
def synthesize_stop_times (stops_data : List String) (distances : List ℚ)
    (start_time duration : ℚ) : List TripStopTime :=
  match stops_data with
  | [] => []
  | _ :: _ =>
    let times := provisional_times distances start_time duration
    let current_time := times.getLastD start_time
    let entries := (stops_data.zip times).enum.map
      (fun p => TripStopTime.mk p.2.1 (p.1 + 1) p.2.2)
    if start_time + duration < current_time then
      let scale_factor := duration / (current_time - start_time)
      match entries with
      | [] => []
      | e0 :: rest =>
        e0 :: rest.map (fun e =>
          { e with time := start_time + (e.time - start_time) * scale_factor })
    else entries

/-! ## Schedule cleaner (`cleanup_trips`, gtfs.py lines 572-598) -/

/-- A row of the `trips` collection (gtfs.py 89-99). -/
structure Trip where
  route_id : String
  service_id : String
  trip_id : String
  trip_headsign : String
  direction_id : String
  shape_id : String
deriving DecidableEq, Repr

/-- A row of the `stop_times` collection (gtfs.py 101-109). -/
structure StopTimeRow where
  trip_id : String
  arrival_time : String
  departure_time : String
  stop_id : String
  stop_sequence : Nat
deriving DecidableEq, Repr

/-- `cleanup_trips()` (gtfs.py 572-598): count stop-time rows per trip id, list
the trip ids whose count is at most 1, and, when that list is non-empty, filter
both collections down to the trips not in the list. -/
def cleanup_trips (trips : List Trip) (stop_times : List StopTimeRow) :
    List Trip × List StopTimeRow :=
  let single_stop_trips :=
    ((stop_times.map (fun st => st.trip_id)).dedup).filter
      (fun tid => stop_times.countP (fun st => st.trip_id == tid) ≤ 1)
  if single_stop_trips.isEmpty then (trips, stop_times)
  else
    (trips.filter (fun t => !(single_stop_trips.contains t.trip_id)),
     stop_times.filter (fun st => !(single_stop_trips.contains st.trip_id)))

/-! ## Route short-name normalisation (`GTFSWriter.add_route`, gtfs.py 69-79) -/

/-- Python's `s.split(' ')` on a string modelled as its list of characters:
splits at every single space, keeping empty fragments. -/
def split_on_space : List Char → List (List Char)
  | [] => [[]]
  | c :: cs =>
    let r := split_on_space cs
    if c = ' ' then [] :: r
    else (c :: r.headD []) :: r.tail

/-- The `route_short_name` stored by `add_route` (gtfs.py 71):
`short_name.split(' ')[0] if ' ' in short_name and len(short_name) > 12 else
short_name`. -/
def add_route_short_name (short_name : List Char) : List Char :=
  if ' ' ∈ short_name ∧ 12 < short_name.length then (split_on_space short_name).headD []
  else short_name

/-! ## Fares v1 construction (`add_fares`, gtfs.py lines 693-825) -/

/-- Rounding half to even on a rational, as Python's fixed-point formatting
does on the decimal expansion. -/
def round_half_even (x : ℚ) : ℤ :=
  if x - ⌊x⌋ = 1/2 then (if ⌊x⌋ % 2 = 0 then ⌊x⌋ else ⌊x⌋ + 1) else round x

/-- Python's `f"{v:.2f}"` on a (non-negative) fare value: the value rounded to
hundredths, rendered with exactly two digits after the decimal point. -/
def format2dp (v : ℚ) : String :=
  let n := round_half_even (v * 100)
  let frac := (n.emod 100).toNat
  toString (n.ediv 100) ++ "." ++ (if frac < 10 then "0" ++ toString frac else toString frac)

/-- A row of the `fare_attributes` dictionary (gtfs.py 120-134). -/
structure FareAttr where
  fare_id : String
  price : String
  currency_type : String
  payment_method : Nat
  transfers : String
  agency_id : String
deriving DecidableEq, Repr

/-- A row of the `fare_rules` list (gtfs.py 136-145); `add_fares` always passes
all four fields. -/
structure FareRule where
  fare_id : String
  route_id : String
  origin_id : String
  destination_id : String
deriving DecidableEq, Repr

/-- A Python dict modelled as an association list: assignment `d[k] = v`
replaces the value in place if the key exists, otherwise appends. -/
def dict_insert {β : Type} (l : List (String × β)) (k : String) (v : β) :
    List (String × β) :=
  if l.any (fun p => p.1 == k) then l.map (fun p => if p.1 == k then (k, v) else p)
  else l ++ [(k, v)]

/-- Python dict lookup `d.get(k)` on the association-list model. -/
def dict_get {β : Type} (l : List (String × β)) (k : String) : Option β :=
  (l.find? (fun p => p.1 == k)).map (fun p => p.2)

/-- `GTFSWriter.add_fare_attribute` (gtfs.py 120-134) as called from
`add_fares`: `currency_type="INR"`, `payment_method=0`, `transfers=None`
(stored as the empty string), price formatted to two decimals. -/
def add_fare_attribute (attrs : List (String × FareAttr)) (fare_id : String) (price : ℚ) :
    List (String × FareAttr) :=
  dict_insert attrs fare_id
    { fare_id := fare_id
      price := format2dp price
      currency_type := "INR"
      payment_method := 0
      transfers := ""
      agency_id := "1" }

/-- The ordered pairs `(route_stops[i], route_stops[j])` for `i < j`, in the
order of the double loop of `add_fares` (gtfs.py 787-790). -/
def stop_pairs : List String → List (String × String)
  | [] => []
  | a :: rest => rest.map (fun b => (a, b)) ++ stop_pairs rest

/-- The body of the fare-rule loop of `add_fares` (gtfs.py 792-812) for one
stop pair: resolve both stop codes (skipping missing or falsy empty codes),
look the pair key up in the fare cache, and build the rule with the fare id
derived from the formatted fare value. -/
def make_rule (stop_codes : List (String × String)) (cache : List (String × ℚ))
    (route_id : String) (p : String × String) : Option FareRule :=
  match dict_get stop_codes p.1, dict_get stop_codes p.2 with
  | some ca, some cb =>
    if ca = "" ∨ cb = "" then none
    else
      match dict_get cache (ca ++ "_" ++ cb) with
      | some v => some
          { fare_id := "fare_" ++ format2dp v
            route_id := route_id
            origin_id := p.1
            destination_id := p.2 }
      | none => none
  | _, _ => none

/-- The registry-building core of `add_fares` (gtfs.py 765-812), starting from
the loaded fare cache: one fare attribute per distinct fare value (fare id
`f"fare_{fare_value:.2f}"`), and one fare rule per stop pair of each route
whose codes resolve and whose pair key is in the cache. -/
def add_fares (stop_codes : List (String × String)) (fare_data_cache : List (String × ℚ))
    (route_stops_map : List (String × List String)) :
    List (String × FareAttr) × List FareRule :=
  let unique_fares := (fare_data_cache.map (fun p => p.2)).dedup
  let attrs := unique_fares.foldl
    (fun acc v => add_fare_attribute acc ("fare_" ++ format2dp v) v) []
  let rules := route_stops_map.flatMap
    (fun rs => (stop_pairs rs.2).filterMap (make_rule stop_codes fare_data_cache rs.1))
  (attrs, rules)

/-! ## Concrete inputs used in example theorems and witnesses -/

/-- A fare map knowing only the pair (A, B), used to exercise a duplicated
stop in a route's stop list. -/
def dupStopFares : String → String → Option ℚ := fun a b =>
  if a = "A" ∧ b = "B" then some 10 else none

/-- A trip row added by `add_trip` for which the stop-time loop contributed no
rows (gtfs.py 432-444: the trip is appended before `stops_data` is checked). -/
def ghostTrip : Trip :=
  { route_id := "314", service_id := "1", trip_id := "7", trip_headsign := "KBS"
    direction_id := "0", shape_id := "314 UP" }

/-- A trip row with two stop-time rows, used as a surviving trip. -/
def keptTrip : Trip :=
  { route_id := "314", service_id := "1", trip_id := "1", trip_headsign := "KBS"
    direction_id := "0", shape_id := "314 UP" }

/-- A trip row with a single stop-time row, removed by the cleaner. -/
def droppedTrip : Trip :=
  { route_id := "314", service_id := "1", trip_id := "2", trip_headsign := "KBS"
    direction_id := "0", shape_id := "314 DOWN" }

/-- A stop-time row for trip id `tid` at stop `sid` with sequence `seq`. -/
def mkRow (tid sid : String) (seq : Nat) : StopTimeRow :=
  { trip_id := tid, arrival_time := "08:00:00", departure_time := "08:00:00"
    stop_id := sid, stop_sequence := seq }

/-- Stop-time rows: two rows for trip 1 and one row for trip 2. -/
def exampleRows : List StopTimeRow :=
  [mkRow "1" "S1" 1, mkRow "1" "S2" 2, mkRow "2" "S1" 1]

/-- The step relation between the stage assignments of consecutive stops:
either the same stage, or the stage number grows by exactly 1. -/
def stage_step (x y : Option Nat) : Prop :=
  y = x ∨ ∃ n, x = some n ∧ y = some (n + 1)

/-! ## Lemmas about the fare-stage loop -/

theorem fare_step_stages_ne (f : String → String → Option ℚ) (st : FareState)
    (prev cur s : String) (h : s ≠ cur) :
    (fare_step f st prev cur).stages s = st.stages s := by
  cases hf : f prev cur with
  | none => simp [fare_step, hf, updMap, h]
  | some v =>
    simp only [fare_step, hf]
    split <;> simp [updMap, h]

theorem fare_step_current (f : String → String → Option ℚ) (st : FareState)
    (prev cur : String) :
    (fare_step f st prev cur).current_stage = st.current_stage ∨
    (fare_step f st prev cur).current_stage = st.current_stage + 1 := by
  cases hf : f prev cur with
  | none => left; simp [fare_step, hf]
  | some v =>
    simp only [fare_step, hf]
    split
    · right; rfl
    · left; rfl

theorem fare_step_stages_cur (f : String → String → Option ℚ) (st : FareState)
    (prev cur : String) (h : st.stages prev = some st.current_stage) :
    (fare_step f st prev cur).stages cur = some ((fare_step f st prev cur).current_stage) := by
  cases hf : f prev cur with
  | none => simp [fare_step, hf, updMap, h]
  | some v =>
    simp only [fare_step, hf]
    split <;> simp [updMap, h]

theorem identify_go_stages_not_mem (f : String → String → Option ℚ) :
    ∀ (rest : List String) (st : FareState) (prev s : String), s ∉ rest →
      (identify_go f st prev rest).stages s = st.stages s := by
  intro rest
  induction rest with
  | nil => intro st prev s _; rfl
  | cons cur rest' ih =>
    intro st prev s hs
    have h1 : s ≠ cur := fun e => hs (e ▸ List.mem_cons_self cur rest')
    have h2 : s ∉ rest' := fun hm => hs (List.mem_cons_of_mem cur hm)
    show (identify_go f (fare_step f st prev cur) cur rest').stages s = st.stages s
    rw [ih (fare_step f st prev cur) cur s h2, fare_step_stages_ne f st prev cur s h1]

theorem identify_go_chain (f : String → String → Option ℚ) :
    ∀ (rest : List String) (st : FareState) (prev : String),
      st.stages prev = some st.current_stage → (prev :: rest).Nodup →
      List.Chain (fun a b =>
        stage_step ((identify_go f st prev rest).stages a)
          ((identify_go f st prev rest).stages b)) prev rest := by
  intro rest
  induction rest with
  | nil => intro st prev _ _; exact List.Chain.nil
  | cons cur rest' ih =>
    intro st prev hst hnd
    have hnd' : (cur :: rest').Nodup := (List.nodup_cons.1 hnd).2
    have hprevcur : prev ≠ cur := by
      intro e
      exact (List.nodup_cons.1 hnd).1 (e ▸ List.mem_cons_self cur rest')
    have hprevrest : prev ∉ rest' := by
      intro hm
      exact (List.nodup_cons.1 hnd).1 (List.mem_cons_of_mem cur hm)
    have hcurrest : cur ∉ rest' := (List.nodup_cons.1 hnd').1
    have hcur : (fare_step f st prev cur).stages cur
        = some ((fare_step f st prev cur).current_stage) :=
      fare_step_stages_cur f st prev cur hst
    show List.Chain (fun a b =>
      stage_step ((identify_go f (fare_step f st prev cur) cur rest').stages a)
        ((identify_go f (fare_step f st prev cur) cur rest').stages b)) prev (cur :: rest')
    have hprevval : (identify_go f (fare_step f st prev cur) cur rest').stages prev
        = some st.current_stage := by
      rw [identify_go_stages_not_mem f rest' _ cur prev hprevrest,
        fare_step_stages_ne f st prev cur prev hprevcur, hst]
    have hcurval : (identify_go f (fare_step f st prev cur) cur rest').stages cur
        = some ((fare_step f st prev cur).current_stage) := by
      rw [identify_go_stages_not_mem f rest' _ cur cur hcurrest]; exact hcur
    refine List.Chain.cons ?_ (ih (fare_step f st prev cur) cur hcur hnd')
    rcases fare_step_current f st prev cur with h | h
    · left
      show (identify_go f (fare_step f st prev cur) cur rest').stages cur
          = (identify_go f (fare_step f st prev cur) cur rest').stages prev
      rw [hprevval, hcurval, h]
    · right
      exact ⟨st.current_stage, hprevval, by rw [hcurval, h]⟩

/-! ## Claim C3: the spec's fare-stage worked example -/

/-- C3 (counterexample): on ordered stops [S1,S2,S3,S4] with fares
{(S1,S2):10, (S1,S3):10, (S1,S4):15}, `identify_fare_stages` does NOT assign
stage 0 to S1, S2, S3 and stage 1 to S4 as the spec's example claims: the very
first observed fare 10 already exceeds the initial running maximum 0, so S2
starts a new stage. -/
theorem fare_stage_example_claim_false :
    ¬ ((identify_fare_stages exampleFares ["S1", "S2", "S3", "S4"]).1 "S1" = some 0 ∧
       (identify_fare_stages exampleFares ["S1", "S2", "S3", "S4"]).1 "S2" = some 0 ∧
       (identify_fare_stages exampleFares ["S1", "S2", "S3", "S4"]).1 "S3" = some 0 ∧
       (identify_fare_stages exampleFares ["S1", "S2", "S3", "S4"]).1 "S4" = some 1) := by
  decide

/-- C3 (amended): on the spec's example input, `identify_fare_stages` assigns
stage 0 to S1 and stage 1 to S2, S3 and S4: the fare 10 on (S1,S2) exceeds the
initial max fare 0 and opens stage 1 at S2, and the unknown fares (S2,S3) and
(S3,S4) make S3 and S4 inherit S2's stage. -/
theorem fare_stage_example_stages :
    (identify_fare_stages exampleFares ["S1", "S2", "S3", "S4"]).1 "S1" = some 0 ∧
    (identify_fare_stages exampleFares ["S1", "S2", "S3", "S4"]).1 "S2" = some 1 ∧
    (identify_fare_stages exampleFares ["S1", "S2", "S3", "S4"]).1 "S3" = some 1 ∧
    (identify_fare_stages exampleFares ["S1", "S2", "S3", "S4"]).1 "S4" = some 1 := by
  decide

/-! ## Claim C5: monotone stage numbers, first stop in stage 0 -/

/-- C5 (counterexample): for a stop list with a repeated stop, the first stop
is not always assigned stage 0.  On stops [A,B,A] with the single fare
(A,B) = 10, the stage dictionary entry for A is overwritten when A is revisited
and inherits B's stage 1, so the first stop's recorded stage is 1, not 0. -/
theorem fare_stages_first_stop_claim_false :
    ¬ ((identify_fare_stages dupStopFares ["A", "B", "A"]).1 "A" = some 0) := by
  decide

/-- C5 (amended): for every fare map and every route stop list with at least
two stops and no duplicated stop, the first stop is assigned stage 0 and along
the stop order each stop's stage equals the previous stop's stage or that
stage plus 1 (hence the stage numbers are non-decreasing). -/
theorem fare_stages_monotone (f : String → String → Option ℚ) (s0 s1 : String)
    (rest : List String) (hnd : (s0 :: s1 :: rest).Nodup) :
    (identify_fare_stages f (s0 :: s1 :: rest)).1 s0 = some 0 ∧
    List.Chain (fun a b =>
      stage_step ((identify_fare_stages f (s0 :: s1 :: rest)).1 a)
        ((identify_fare_stages f (s0 :: s1 :: rest)).1 b)) s0 (s1 :: rest) := by
  have h0 : s0 ∉ s1 :: rest := (List.nodup_cons.1 hnd).1
  have hinit : (initialFareState s0).stages s0 = some (initialFareState s0).current_stage := by
    simp [initialFareState]
  constructor
  · show (identify_go f (initialFareState s0) s0 (s1 :: rest)).stages s0 = some 0
    rw [identify_go_stages_not_mem f (s1 :: rest) (initialFareState s0) s0 s0 h0]
    simp [initialFareState]
  · exact identify_go_chain f (s1 :: rest) (initialFareState s0) s0 hinit hnd

/-- C5 (witness): the amended theorem applied to the spec's example input,
whose four stops are pairwise distinct. -/
theorem fare_stages_monotone_example :
    (identify_fare_stages exampleFares ["S1", "S2", "S3", "S4"]).1 "S1" = some 0 ∧
    List.Chain (fun a b =>
      stage_step ((identify_fare_stages exampleFares ["S1", "S2", "S3", "S4"]).1 a)
        ((identify_fare_stages exampleFares ["S1", "S2", "S3", "S4"]).1 b))
      "S1" ["S2", "S3", "S4"] :=
  fare_stages_monotone exampleFares "S1" "S2" ["S3", "S4"] (by decide)

/-! ## Claim C10: short stop lists -/

/-- C10: for every fare map, a route stop list that is empty or has a single
stop makes `identify_fare_stages` return two empty mappings, whatever the fare
map contains. -/
theorem identify_fare_stages_short (f : String → String → Option ℚ) (l : List String)
    (h : l.length < 2) :
    identify_fare_stages f l = (fun _ => none, fun _ => none) := by
  match l with
  | [] => rfl
  | [a] => rfl
  | a :: b :: t => simp [List.length_cons] at h; omega

/-- C10 (witness): the theorem applied to a one-stop list and a nonempty fare
map. -/
theorem identify_fare_stages_short_single :
    identify_fare_stages exampleFares ["S1"] = (fun _ => none, fun _ => none) :=
  identify_fare_stages_short exampleFares ["S1"] (by decide)

/-! ## Claim C9: route short-name normalisation -/

theorem split_on_space_headD (s : List Char) :
    (split_on_space s).headD [] = s.takeWhile (fun c => !(c == ' ')) := by
  induction s with
  | nil => rfl
  | cons c cs ih =>
    have hsp : split_on_space (c :: cs)
        = if c = ' ' then [] :: split_on_space cs
          else (c :: (split_on_space cs).headD []) :: (split_on_space cs).tail := rfl
    by_cases hc : c = ' '
    · rw [hsp, if_pos hc, List.headD_cons, List.takeWhile_cons]
      simp [hc]
    · have hb : (c == ' ') = false := by simp [hc]
      rw [hsp, if_neg hc, List.headD_cons, List.takeWhile_cons, hb]
      simp only [Bool.not_false, if_true]
      rw [ih]

/-- C9: `add_route` stores `short_name` unchanged unless it contains a space
and is longer than 12 characters, in which case it stores the prefix of
`short_name` before its first space (Python `short_name.split(' ')[0]`). -/
theorem add_route_short_name_spec (s : List Char) :
    ((' ' ∈ s ∧ 12 < s.length) →
      add_route_short_name s = s.takeWhile (fun c => !(c == ' '))) ∧
    (¬ (' ' ∈ s ∧ 12 < s.length) → add_route_short_name s = s) := by
  constructor
  · intro h
    rw [add_route_short_name, if_pos h, split_on_space_headD]
  · intro h
    rw [add_route_short_name, if_neg h]

/-- C9 (witness): a 13-character name containing a space is truncated at the
first space; a short name with a space is kept whole. -/
theorem add_route_short_name_cases :
    add_route_short_name ("ABCDEFGHIJ KL".data)
      = ("ABCDEFGHIJ KL".data).takeWhile (fun c => !(c == ' ')) ∧
    add_route_short_name ("314 A".data) = "314 A".data :=
  ⟨(add_route_short_name_spec ("ABCDEFGHIJ KL".data)).1 (by decide),
   (add_route_short_name_spec ("314 A".data)).2 (by decide)⟩

/-! ## Claim C1: the cleaner and trips with fewer than 2 stop-time rows -/

/-- C1 (counterexample): a trip whose stop-time loop contributed no rows at
all (reachable in `add_trips`: the trip is registered before `stops_data` is
validated) survives `cleanup_trips`, because the count dictionary is built
from `stop_times` and never mentions its trip id.  With that single trip and
no stop-time rows, the cleaned trip collection still contains the trip, whose
stop-time count 0 is less than 2. -/
theorem cleanup_trips_claim_false :
    ¬ (∀ t ∈ (cleanup_trips [ghostTrip] []).1,
        2 ≤ (cleanup_trips [ghostTrip] []).2.countP (fun st => st.trip_id == t.trip_id)) := by
  decide

/-- A trip id that has at least one stop-time row but is not listed among the
single-stop trips of `cleanup_trips` has at least two rows. -/
theorem two_rows_of_not_single (sts : List StopTimeRow) (tid : String)
    (h1 : 0 < sts.countP (fun st => st.trip_id == tid))
    (h2 : tid ∉ ((sts.map (fun st => st.trip_id)).dedup).filter
      (fun t => sts.countP (fun st => st.trip_id == t) ≤ 1)) :
    2 ≤ sts.countP (fun st => st.trip_id == tid) := by
  have hmem : tid ∈ (sts.map (fun st => st.trip_id)).dedup := by
    rw [List.mem_dedup]
    obtain ⟨st, hst, hp⟩ := List.countP_pos_iff.1 h1
    exact List.mem_map.2 ⟨st, hst, by simpa using hp⟩
  by_contra hlt
  apply h2
  rw [List.mem_filter]
  refine ⟨hmem, ?_⟩
  simp only [decide_eq_true_eq]
  omega

/-- C1 (amended): after `cleanup_trips`, every trip remaining in the trip
collection has either zero or at least two stop-time rows; equivalently, no
remaining trip has exactly one row.  (Trips with zero rows are not removed:
the per-trip counts are collected from `stop_times`, which never mentions
them.) -/
theorem cleanup_trips_row_counts (trips : List Trip) (sts : List StopTimeRow) (t : Trip)
    (ht : t ∈ (cleanup_trips trips sts).1) :
    (cleanup_trips trips sts).2.countP (fun st => st.trip_id == t.trip_id) = 0 ∨
    2 ≤ (cleanup_trips trips sts).2.countP (fun st => st.trip_id == t.trip_id) := by
  clear ht
  by_cases hemp : (((sts.map (fun st => st.trip_id)).dedup).filter
      (fun ti => sts.countP (fun st => st.trip_id == ti) ≤ 1)).isEmpty
  · have hres : (cleanup_trips trips sts).2 = sts := by
      simp only [cleanup_trips, hemp, if_true]
    rw [hres]
    rcases Nat.eq_zero_or_pos (sts.countP (fun st => st.trip_id == t.trip_id)) with h0 | hpos
    · exact Or.inl h0
    · refine Or.inr (two_rows_of_not_single sts t.trip_id hpos ?_)
      rw [List.isEmpty_iff] at hemp
      rw [hemp]
      exact List.not_mem_nil _
  · rw [Bool.not_eq_true] at hemp
    have hres : (cleanup_trips trips sts).2 = sts.filter
        (fun st => !((((sts.map (fun s => s.trip_id)).dedup).filter
          (fun ti => sts.countP (fun s2 => s2.trip_id == ti) ≤ 1)).contains st.trip_id)) := by
      simp only [cleanup_trips, hemp]
      rfl
    rw [hres]
    by_cases hin : t.trip_id ∈ ((sts.map (fun s => s.trip_id)).dedup).filter
        (fun ti => sts.countP (fun s2 => s2.trip_id == ti) ≤ 1)
    · left
      rw [List.countP_eq_zero]
      intro st hst
      rw [List.mem_filter] at hst
      intro hbeq
      have heq : st.trip_id = t.trip_id := by simpa using hbeq
      have hnc := hst.2
      rw [heq] at hnc
      have hc : ((((sts.map (fun s => s.trip_id)).dedup).filter
          (fun ti => sts.countP (fun s2 => s2.trip_id == ti) ≤ 1)).contains t.trip_id)
          = false := by
        revert hnc
        cases h : ((((sts.map (fun s => s.trip_id)).dedup).filter
          (fun ti => sts.countP (fun s2 => s2.trip_id == ti) ≤ 1)).contains t.trip_id) <;> simp
      simp only [List.contains, List.elem_eq_mem, decide_eq_false_iff_not] at hc
      exact hc hin
    · have hcount : (sts.filter
          (fun st => !((((sts.map (fun s => s.trip_id)).dedup).filter
            (fun ti => sts.countP (fun s2 => s2.trip_id == ti) ≤ 1)).contains st.trip_id))).countP
            (fun st => st.trip_id == t.trip_id)
          = sts.countP (fun st => st.trip_id == t.trip_id) := by
        rw [List.countP_filter]
        refine List.countP_congr ?_
        intro st hst
        simp only [Bool.and_eq_true]
        constructor
        · intro hb
          exact hb.1
        · intro hb
          refine ⟨hb, ?_⟩
          have heq : st.trip_id = t.trip_id := by simpa using hb
          rw [heq]
          simp [List.contains, hin]
      rw [hcount]
      rcases Nat.eq_zero_or_pos (sts.countP (fun st => st.trip_id == t.trip_id)) with h0 | hpos
      · exact Or.inl h0
      · exact Or.inr (two_rows_of_not_single sts t.trip_id hpos (by simpa using hin))

/-- C1 (witness): on two trips with respectively two rows and one row, the
surviving trip 1 satisfies the amended invariant. -/
theorem cleanup_trips_row_counts_example :
    (cleanup_trips [keptTrip, droppedTrip] exampleRows).2.countP
        (fun st => st.trip_id == keptTrip.trip_id) = 0 ∨
    2 ≤ (cleanup_trips [keptTrip, droppedTrip] exampleRows).2.countP
        (fun st => st.trip_id == keptTrip.trip_id) :=
  cleanup_trips_row_counts [keptTrip, droppedTrip] exampleRows keptTrip (by decide)

/-! ## Lemmas about the trip time synthesizer -/

theorem scanl_getLastD {α β : Type} (f : β → α → β) (l : List α) :
    ∀ (b d : β), (l.scanl f b).getLastD d = l.foldl f b := by
  induction l with
  | nil => intro b d; rfl
  | cons a l ih =>
    intro b d
    rw [List.scanl_cons, List.singleton_append, List.getLastD_cons, List.foldl_cons]
    exact ih (f b a) b

theorem foldl_add_map (g : ℚ → ℚ) (l : List ℚ) :
    ∀ t : ℚ, l.foldl (fun acc d => acc + g d) t = t + (l.map g).sum := by
  induction l with
  | nil => intro t; simp
  | cons a l ih =>
    intro t
    rw [List.foldl_cons, ih, List.map_cons, List.sum_cons]
    ring

/-- The provisional `current_time` after the allocation loop is `start_time`
plus the sum of the allocated segment times. -/
theorem provisional_times_getLastD (distances : List ℚ) (s du : ℚ) :
    (provisional_times distances s du).getLastD s
      = s + (distances.map (segment_time du distances.sum distances.length)).sum := by
  rw [provisional_times, scanl_getLastD, foldl_add_map]

/-- The proportional shares of the segments sum exactly to the duration. -/
theorem sum_prop_times (l : List ℚ) (du : ℚ) (h : l.sum ≠ 0) :
    (l.map (fun d => du * (d / l.sum))).sum = du := by
  have h1 : (l.map (fun d => du * (d / l.sum))).sum
      = (l.map (fun d => (du / l.sum) * d)).sum := by
    apply congrArg
    apply List.map_congr_left
    intro d _
    ring
  have h2 : (l.map (fun d => (du / l.sum) * d)).sum
      = (du / l.sum) * (l.map (fun d => d)).sum :=
    List.sum_map_mul_left l (fun d => d) (du / l.sum)
  rw [h1, h2, List.map_id']
  exact div_mul_cancel₀ du h

theorem segment_time_eq_prop (du total : ℚ) (n : Nat) (d : ℚ) (htot : 0 < total)
    (hfit : d / MAX_SPEED_KMH * 3600 ≤ du * (d / total)) :
    segment_time du total n d = du * (d / total) := by
  unfold segment_time
  simp only [if_pos htot]
  exact max_eq_left hfit

theorem getLast?_eq_getLastD {α : Type} (l : List α) (d : α) (h : l ≠ []) :
    l.getLast? = some (l.getLastD d) := by
  obtain ⟨y, hy⟩ := Option.isSome_iff_exists.1 (List.getLast?_isSome.2 h)
  rw [List.getLastD_eq_getLast?, hy]
  rfl

theorem segment_time_of_pos (du total : ℚ) (n : Nat) (d : ℚ) (htot : 0 < total) :
    segment_time du total n d = max (du * (d / total)) (d / MAX_SPEED_KMH * 3600) := by
  unfold segment_time
  simp only [if_pos htot]

/-- The times stored in the provisional entry list are exactly the provisional
timestamps, when the stop list and the timestamp list have the same length. -/
theorem entries_map_time (ids : List String) (ts : List ℚ) (h : ids.length = ts.length) :
    ((ids.zip ts).enum.map (fun p => TripStopTime.mk p.2.1 (p.1 + 1) p.2.2)).map
      (fun e => e.time) = ts := by
  rw [List.map_map]
  have h1 : ((fun e : TripStopTime => e.time) ∘ fun p : Nat × (String × ℚ) =>
      TripStopTime.mk p.2.1 (p.1 + 1) p.2.2) = ((fun q : String × ℚ => q.2) ∘ Prod.snd) := rfl
  rw [h1, ← List.map_map]
  rw [show (ids.zip ts).enum = (ids.zip ts).enumFrom 0 from rfl, List.enumFrom_map_snd]
  exact List.map_snd_zip ids ts (le_of_eq h.symm)

theorem scanl_eq_cons {α β : Type} (f : β → α → β) (b : β) (l : List α) :
    ∃ ts, l.scanl f b = b :: ts := by
  cases l with
  | nil => exact ⟨[], rfl⟩
  | cons a l => exact ⟨l.scanl f (f b a), by rw [List.scanl_cons, List.singleton_append]⟩

theorem entries_cons (s : String) (stops' : List String) (t0 : ℚ) (ts : List ℚ) :
    (((s :: stops').zip (t0 :: ts)).enum.map (fun p => TripStopTime.mk p.2.1 (p.1 + 1) p.2.2))
      = TripStopTime.mk s 1 t0 :: ((stops'.zip ts).enumFrom 1).map
          (fun p => TripStopTime.mk p.2.1 (p.1 + 1) p.2.2) := by
  rw [List.zip_cons_cons, List.enum_cons, List.map_cons]

/-! ## Claim C4: exact fit when no segment needs the minimum-speed floor -/

/-- C4: for a trip with at least 2 stops, positive total distance, positive
duration, and no segment whose minimum-speed floor exceeds its proportional
share, the allocated segment times sum exactly to `end_time - start_time`, the
provisional final time does not exceed `end_time` (so the rescale branch is
not taken), and the last stop's timestamp equals `end_time`. -/
theorem synthesize_exact_fit (stops : List String) (distances : List ℚ)
    (start duration : ℚ)
    (hlen : stops.length = distances.length + 1)
    (htot : 0 < distances.sum) (hdur : 0 < duration)
    (hfit : ∀ d ∈ distances, d / MAX_SPEED_KMH * 3600 ≤ duration * (d / distances.sum)) :
    (distances.map (segment_time duration distances.sum distances.length)).sum = duration ∧
    (provisional_times distances start duration).getLastD start ≤ start + duration ∧
    ((synthesize_stop_times stops distances start duration).map (fun e => e.time)).getLast?
      = some (start + duration) := by
  have hmap : distances.map (segment_time duration distances.sum distances.length)
      = distances.map (fun d => duration * (d / distances.sum)) := by
    apply List.map_congr_left
    intro d hd
    exact segment_time_eq_prop duration distances.sum distances.length d htot (hfit d hd)
  have hsum : (distances.map (segment_time duration distances.sum distances.length)).sum
      = duration := by
    rw [hmap]
    exact sum_prop_times distances duration (ne_of_gt htot)
  have hlast : (provisional_times distances start duration).getLastD start
      = start + duration := by
    rw [provisional_times_getLastD, hsum]
  refine ⟨hsum, le_of_eq hlast, ?_⟩
  have hne : stops ≠ [] := by
    intro h
    rw [h] at hlen
    simp at hlen
  obtain ⟨s, rest, rfl⟩ := List.exists_cons_of_ne_nil hne
  have heq : synthesize_stop_times (s :: rest) distances start duration
      = (((s :: rest).zip (provisional_times distances start duration)).enum.map
          (fun p => TripStopTime.mk p.2.1 (p.1 + 1) p.2.2)) := by
    simp only [synthesize_stop_times]
    rw [if_neg (by rw [hlast]; exact lt_irrefl _)]
  have htlen : (s :: rest).length = (provisional_times distances start duration).length := by
    rw [provisional_times, List.length_scanl]
    exact hlen
  have htne : provisional_times distances start duration ≠ [] := by
    apply List.ne_nil_of_length_pos
    rw [provisional_times, List.length_scanl]
    omega
  rw [heq, entries_map_time _ _ htlen, getLast?_eq_getLastD _ start htne, hlast]

/-- C4 (witness): the trip of the spec's time-synthesis example — segments of
2 km and 0.5 km, duration 600 s — fits exactly: allocated times sum to 600,
no rescale, last stop at `end_time`. -/
theorem synthesize_exact_fit_example :
    ([(2:ℚ), 1/2].map (segment_time 600 ([(2:ℚ), 1/2]).sum ([(2:ℚ), 1/2]).length)).sum
      = 600 ∧
    (provisional_times [(2:ℚ), 1/2] 28800 600).getLastD 28800 ≤ 28800 + 600 ∧
    ((synthesize_stop_times ["A", "B", "C"] [(2:ℚ), 1/2] 28800 600).map
      (fun e => e.time)).getLast? = some (28800 + 600) :=
  synthesize_exact_fit ["A", "B", "C"] [2, 1/2] 28800 600 rfl
    (by norm_num [List.sum_cons, List.sum_nil]) (by norm_num)
    (by
      intro d hd
      simp only [List.mem_cons, List.not_mem_nil, or_false] at hd
      rcases hd with rfl | rfl <;>
        norm_num [MAX_SPEED_KMH, List.sum_cons, List.sum_nil])

/-! ## Claim C2: the rescale step lands the last stop exactly on end_time -/

/-- C2: (i) for every trip with at least 2 stops, positive duration, and a
provisional last-stop timestamp exceeding `end_time = start_time + duration`,
the rescaled last-stop timestamp equals `end_time` exactly; (ii) in every case
(rescale or not) the first stop's timestamp equals `start_time`; (iii) in
particular, when the total distance is positive and some segment's
minimum-speed floor exceeds its proportional share, the provisional last-stop
timestamp does exceed `end_time`. -/
theorem synthesize_rescale_endpoints (stops : List String) (distances : List ℚ)
    (start duration : ℚ) :
    (stops.length = distances.length + 1 → 2 ≤ stops.length → 0 < duration →
      start + duration < (provisional_times distances start duration).getLastD start →
      ((synthesize_stop_times stops distances start duration).map (fun e => e.time)).getLast?
        = some (start + duration)) ∧
    (stops ≠ [] →
      ((synthesize_stop_times stops distances start duration).map (fun e => e.time)).head?
        = some start) ∧
    (0 < distances.sum →
      (∃ d ∈ distances, duration * (d / distances.sum) < d / MAX_SPEED_KMH * 3600) →
      start + duration < (provisional_times distances start duration).getLastD start) := by
  refine ⟨?_, ?_, ?_⟩
  · -- rescale drives the last stop exactly to end_time
    intro hlen hstops hdur hover
    have hne : stops ≠ [] := by
      intro h
      rw [h] at hstops
      simp at hstops
    obtain ⟨s, stops', rfl⟩ := List.exists_cons_of_ne_nil hne
    have htlen : (s :: stops').length = (provisional_times distances start duration).length := by
      rw [provisional_times, List.length_scanl]
      exact hlen
    have htne : provisional_times distances start duration ≠ [] := by
      apply List.ne_nil_of_length_pos
      rw [provisional_times, List.length_scanl]
      omega
    set times := provisional_times distances start duration with htimes
    set tl := times.getLastD start with htl
    set k := duration / (tl - start) with hk
    have heq : synthesize_stop_times (s :: stops') distances start duration
        = match (((s :: stops').zip times).enum.map
            (fun p => TripStopTime.mk p.2.1 (p.1 + 1) p.2.2)) with
          | [] => []
          | e0 :: r => e0 :: r.map (fun e =>
              { e with time := start + (e.time - start) * k }) := by
      simp only [synthesize_stop_times]
      rw [if_pos hover]
    have hmap : (((s :: stops').zip times).enum.map
        (fun p => TripStopTime.mk p.2.1 (p.1 + 1) p.2.2)).map (fun e => e.time) = times :=
      entries_map_time _ _ htlen
    have hene : (((s :: stops').zip times).enum.map
        (fun p => TripStopTime.mk p.2.1 (p.1 + 1) p.2.2)) ≠ [] := by
      intro h
      rw [h] at hmap
      exact htne hmap.symm
    obtain ⟨e0, r, hE⟩ := List.exists_cons_of_ne_nil hene
    rw [hE] at heq hmap
    have hrne : r ≠ [] := by
      intro h
      rw [h] at hmap
      have h1 : times.length = 1 := by rw [← hmap]; rfl
      rw [h1] at htlen
      rw [htlen] at hstops
      omega
    -- identify the time of the last element of r
    have hrtime : (r.getLast?).map (fun e => e.time) = some tl := by
      have h1 : (r.map (fun e => e.time)).getLast? = some tl := by
        have h2 : (e0 :: r).map (fun e => e.time) = times := hmap
        have h3 : times.getLast? = some tl :=
          getLast?_eq_getLastD times start htne
        rw [← h2] at h3
        rw [List.map_cons] at h3
        rw [← h3]
        have hmapne : r.map (fun e => e.time) ≠ [] := by
          intro h
          apply hrne
          exact List.map_eq_nil_iff.1 h
        rcases hx : r.map (fun e => e.time) with _ | ⟨x, xs⟩
        · exact absurd hx hmapne
        · rw [hx, List.getLast?_cons_cons]
      rw [List.getLast?_map] at h1
      exact h1
    have hrlast : r.getLast? = some (r.getLastD e0) := getLast?_eq_getLastD r e0 hrne
    have hrltime : (r.getLastD e0).time = tl := by
      rw [hrlast] at hrtime
      simpa using hrtime
    -- compute the final list and its last element
    rw [heq]
    rw [List.map_cons, List.map_map]
    have hX : (List.map ((fun e : TripStopTime => e.time) ∘ fun e : TripStopTime =>
        { e with time := start + (e.time - start) * k }) r)
        = r.map (fun e => start + (e.time - start) * k) := rfl
    rw [hX]
    have hXne : r.map (fun e => start + (e.time - start) * k) ≠ [] := by
      intro h
      exact hrne (List.map_eq_nil_iff.1 h)
    rcases hx : r.map (fun e => start + (e.time - start) * k) with _ | ⟨x, xs⟩
    · exact absurd hx hXne
    · rw [hx, List.getLast?_cons_cons, ← hx, List.getLast?_map, hrlast]
      have hne0 : tl - start ≠ 0 := by
        have h6 : 0 < tl - start := by
          have := hover
          linarith
        exact ne_of_gt h6
      have harith : start + ((r.getLastD e0).time - start) * k = start + duration := by
        rw [hrltime, hk]
        have hcancel : (tl - start) * (duration / (tl - start)) = duration := by
          rw [mul_comm]
          exact div_mul_cancel₀ duration hne0
        rw [hcancel]
      simp only [Option.map_some']
      exact congrArg some harith
  · -- the first entry always keeps start_time
    intro hne
    obtain ⟨s, stops', rfl⟩ := List.exists_cons_of_ne_nil hne
    obtain ⟨ts, hts0⟩ := scanl_eq_cons
      (fun t x => t + segment_time duration distances.sum distances.length x) start distances
    have hts : provisional_times distances start duration = start :: ts := hts0
    simp only [synthesize_stop_times]
    rw [hts, entries_cons]
    split
    · simp
    · simp
  · -- a dominated segment forces the provisional end past end_time
    intro htot hex
    obtain ⟨d, hd, hlt⟩ := hex
    rw [provisional_times_getLastD]
    have hlt2 : duration <
        (distances.map (segment_time duration distances.sum distances.length)).sum := by
      have hp : (distances.map (fun x => duration * (x / distances.sum))).sum = duration :=
        sum_prop_times distances duration (ne_of_gt htot)
      calc duration = (distances.map (fun x => duration * (x / distances.sum))).sum := hp.symm
        _ < (distances.map (segment_time duration distances.sum distances.length)).sum := by
            apply List.sum_lt_sum
            · intro i hi
              rw [segment_time_of_pos duration distances.sum distances.length i htot]
              exact le_max_left _ _
            · refine ⟨d, hd, ?_⟩
              rw [segment_time_of_pos duration distances.sum distances.length d htot]
              exact lt_of_lt_of_le hlt (le_max_right _ _)
    linarith

/-- C2 (witness): a one-segment trip of 10 km in 60 seconds violates the
75 km/h cap (floor 480 s), triggers the rescale, and ends exactly at
`end_time`; its first stop stays at `start_time`. -/
theorem synthesize_rescale_example :
    ((synthesize_stop_times ["A", "B"] [10] 0 60).map (fun e => e.time)).getLast?
      = some 60 ∧
    ((synthesize_stop_times ["A", "B"] [10] 0 60).map (fun e => e.time)).head?
      = some 0 := by
  have h := synthesize_rescale_endpoints ["A", "B"] [10] 0 60
  have hover : (0:ℚ) + 60 < (provisional_times [10] 0 60).getLastD 0 :=
    h.2.2 (by norm_num) ⟨10, by simp, by norm_num [MAX_SPEED_KMH]⟩
  constructor
  · have := h.1 rfl (by norm_num) (by norm_num) hover
    simpa using this
  · exact h.2.1 (by simp)

/-! ## Claim C6: the spec's time-synthesis worked example -/

theorem provisional_times_example :
    provisional_times [(2:ℚ), 1/2] 28800 600 = [28800, 29280, 29400] := by
  norm_num [provisional_times, List.scanl, segment_time, MAX_SPEED_KMH, max_def,
    List.sum_cons, List.sum_nil]

theorem synthesize_example_eval :
    synthesize_stop_times ["A", "B", "C"] [2, 1/2] 28800 600 =
      [⟨"A", 1, 28800⟩, ⟨"B", 2, 29280⟩, ⟨"C", 3, 29400⟩] := by
  simp only [synthesize_stop_times, provisional_times_example]
  norm_num [List.getLastD, List.zip, List.zipWith, List.enum, List.enumFrom]

/-- C6 (counterexample): on the example trip — segments 2 km and 0.5 km from
stops at 0 km, 2 km and 2.5 km, start 08:00 (28800 s), end 08:10 (600 s) — the
proportional time of the first segment is `600 * (2 / 2.5) = 480`, not the
533 s the spec's example states, and stop B is timestamped 29280 s (08:08:00),
not 29333 s (08:08:53). -/
theorem synthesize_example_claim_false :
    ¬ ((2 / MAX_SPEED_KMH * 3600 = (96:ℚ)) ∧ ((1/2) / MAX_SPEED_KMH * 3600 = (24:ℚ)) ∧
       ((600:ℚ) * (2 / (2 + 1/2)) = 533) ∧ ((600:ℚ) * ((1/2) / (2 + 1/2)) = 67) ∧
       ((synthesize_stop_times ["A", "B", "C"] [2, 1/2] 28800 600).map
         (fun e => e.time)).get? 1 = some 29333) := by
  intro h
  have h3 := h.2.2.1
  norm_num at h3

/-- C6 (amended): on the example trip the minimum times are 96 s and 24 s, the
proportional times are 480 s and 120 s, each segment is allocated the maximum
of the two (480 s and 120 s, summing to the whole 600 s, so no rescale is
triggered), and the synthesized stop times put A at 08:00:00 (28800 s),
B at 08:08:00 (29280 s) and C at 08:10:00 (29400 s). -/
theorem synthesize_example_correct :
    ((2:ℚ) / MAX_SPEED_KMH * 3600 = 96) ∧ (((1:ℚ)/2) / MAX_SPEED_KMH * 3600 = 24) ∧
    ((600:ℚ) * (2 / (2 + 1/2)) = 480) ∧ ((600:ℚ) * ((1/2) / (2 + 1/2)) = 120) ∧
    segment_time 600 (5/2) 2 2 = 480 ∧ segment_time 600 (5/2) 2 (1/2) = 120 ∧
    (provisional_times [(2:ℚ), 1/2] 28800 600).getLastD 28800 ≤ 28800 + 600 ∧
    synthesize_stop_times ["A", "B", "C"] [2, 1/2] 28800 600 =
      [⟨"A", 1, 28800⟩, ⟨"B", 2, 29280⟩, ⟨"C", 3, 29400⟩] := by
  refine ⟨by norm_num [MAX_SPEED_KMH], by norm_num [MAX_SPEED_KMH], by norm_num,
    by norm_num, by norm_num [segment_time, MAX_SPEED_KMH, max_def],
    by norm_num [segment_time, MAX_SPEED_KMH, max_def],
    by rw [provisional_times_example]; norm_num [List.getLastD],
    synthesize_example_eval⟩

/-! ## Claim C7: failed coordinate pairs get the 0.5 km default -/
theorem compute_distances_default (hav : ℚ → ℚ → ℚ → ℚ → ℚ) :
    ∀ (coords : List StopCoords) (i : Nat), i + 1 < coords.length →
      (coords.get? i = some none ∨ coords.get? (i + 1) = some none) →
      (compute_distances hav coords).get? i = some (1/2) := by
  intro coords
  induction coords with
  | nil => intro i hi _; simp at hi
  | cons a rest ih =>
    intro i hi hm
    cases rest with
    | nil => simp at hi
    | cons b rest' =>
      cases i with
      | zero =>
        simp only [compute_distances]
        rw [List.get?_cons_zero]
        rcases hm with h | h
        · have ha : a = none := by simpa using h
          subst ha
          rfl
        · have hb : b = none := by simpa using h
          subst hb
          cases a <;> rfl
      | succ j =>
        have hj : j + 1 < (b :: rest').length := by
          simp only [List.length_cons] at hi ⊢
          omega
        have hmj : (b :: rest').get? j = some none ∨ (b :: rest').get? (j + 1) = some none := by
          rcases hm with h | h
          · left; simpa using h
          · right; simpa using h
        simp only [compute_distances]
        rw [List.get?_cons_succ]
        exact ih j hj hmj

theorem synthesize_length (ids : List String) (dists : List ℚ) (s du : ℚ) :
    (synthesize_stop_times ids dists s du).length = min ids.length (dists.length + 1) := by
  cases ids with
  | nil => simp [synthesize_stop_times]
  | cons a l =>
    have hlen_e : ((((a :: l).zip (provisional_times dists s du)).enum.map
        (fun p => TripStopTime.mk p.2.1 (p.1 + 1) p.2.2))).length
        = min (a :: l).length (dists.length + 1) := by
      rw [List.length_map, List.enum_length, List.length_zip, provisional_times,
        List.length_scanl]
    simp only [synthesize_stop_times]
    split
    · rcases hE : (((a :: l).zip (provisional_times dists s du)).enum.map
          (fun p => TripStopTime.mk p.2.1 (p.1 + 1) p.2.2)) with _ | ⟨e0, r⟩
      · rw [hE] at hlen_e
        simp only [List.length_nil] at hlen_e
        simp only [List.length_cons] at hlen_e ⊢
        omega
      · rw [hE] at hlen_e
        rw [hE]
        show (e0 :: r.map _).length = _
        rw [List.length_cons, List.length_map, ← hlen_e, List.length_cons]
    · exact hlen_e

theorem compute_distances_length (hav : ℚ → ℚ → ℚ → ℚ → ℚ) :
    ∀ coords : List StopCoords,
      (compute_distances hav coords).length = coords.length - 1 := by
  intro coords
  induction coords with
  | nil => rfl
  | cons a rest ih =>
    cases rest with
    | nil => rfl
    | cons b rest' =>
      simp only [compute_distances, List.length_cons]
      rw [ih]
      simp

/-- C7: for every consecutive stop pair whose coordinate lookup or conversion
fails (modelled as a `none` coordinate), the distance pass of `add_trips` uses
the fixed 0.5 km default for that segment, and the synthesized stop-time
sequence is still complete: one row per stop of the trip. -/
theorem default_distance_on_failed_coords (hav : ℚ → ℚ → ℚ → ℚ → ℚ)
    (coords : List StopCoords) (ids : List String) (start duration : ℚ) (i : Nat)
    (hlen : ids.length = coords.length) (hi : i + 1 < coords.length)
    (hmiss : coords.get? i = some none ∨ coords.get? (i + 1) = some none) :
    (compute_distances hav coords).get? i = some (1/2) ∧
    (synthesize_stop_times ids (compute_distances hav coords) start duration).length
      = ids.length := by
  refine ⟨compute_distances_default hav coords i hi hmiss, ?_⟩
  rw [synthesize_length, compute_distances_length, hlen]
  omega

/-- C7 (witness): a three-stop trip whose middle stop has no usable
coordinates gets 0.5 km for the first segment and still three stop-time
rows. -/
theorem default_distance_example :
    (compute_distances (fun _ _ _ _ => 3) [some (0, 0), none, some (1, 1)]).get? 0
      = some (1/2) ∧
    (synthesize_stop_times ["A", "B", "C"]
      (compute_distances (fun _ _ _ _ => 3) [some (0, 0), none, some (1, 1)]) 28800 600).length
      = 3 :=
  default_distance_on_failed_coords (fun _ _ _ _ => 3) [some (0, 0), none, some (1, 1)]
    ["A", "B", "C"] 28800 600 0 rfl (by decide) (Or.inr rfl)

/-! ## Claim C8: fare-rule ids and fare identity in add_fares -/

theorem keys_dict_insert {β : Type} (l : List (String × β)) (k : String) (v : β) :
    (dict_insert l k v).map (fun p => p.1)
      = if l.any (fun p => p.1 == k) then l.map (fun p => p.1)
        else l.map (fun p => p.1) ++ [k] := by
  unfold dict_insert
  split
  · rw [List.map_map]
    apply List.map_congr_left
    intro p _
    by_cases h : (p.1 == k) = true
    · show (if (p.1 == k) = true then (k, v) else p).1 = p.1
      rw [if_pos h]
      exact (by simpa using h : p.1 = k).symm
    · show (if (p.1 == k) = true then (k, v) else p).1 = p.1
      rw [if_neg h]
  · rw [List.map_append]
    rfl

theorem mem_keys_dict_insert {β : Type} (l : List (String × β)) (k k' : String) (v : β) :
    k' ∈ (dict_insert l k v).map (fun p => p.1)
      ↔ k' ∈ l.map (fun p => p.1) ∨ k' = k := by
  rw [keys_dict_insert]
  split
  · rename_i hany
    constructor
    · exact Or.inl
    · rintro (h | rfl)
      · exact h
      · obtain ⟨p, hp, hpk⟩ := List.any_eq_true.1 hany
        exact List.mem_map.2 ⟨p, hp, by simpa using hpk⟩
  · simp [List.mem_append]

theorem nodup_keys_dict_insert {β : Type} (l : List (String × β)) (k : String) (v : β)
    (h : (l.map (fun p => p.1)).Nodup) :
    ((dict_insert l k v).map (fun p => p.1)).Nodup := by
  rw [keys_dict_insert]
  split
  · exact h
  · rename_i hany
    rw [List.nodup_append]
    refine ⟨h, List.nodup_singleton k, ?_⟩
    intro x hx hk
    have hxk : x = k := by simpa using hk
    subst hxk
    obtain ⟨p, hp, hpk⟩ := List.mem_map.1 hx
    apply hany
    exact List.any_eq_true.2 ⟨p, hp, by simpa using hpk⟩

theorem mem_keys_attrs_fold (vs : List ℚ) :
    ∀ (acc : List (String × FareAttr)) (k : String),
      k ∈ ((vs.foldl (fun acc v =>
          add_fare_attribute acc ("fare_" ++ format2dp v) v) acc).map (fun p => p.1))
        ↔ k ∈ acc.map (fun p => p.1) ∨ ∃ v ∈ vs, k = "fare_" ++ format2dp v := by
  induction vs with
  | nil => intro acc k; simp
  | cons w ws ih =>
    intro acc k
    rw [List.foldl_cons, ih]
    rw [show add_fare_attribute acc ("fare_" ++ format2dp w) w
        = dict_insert acc ("fare_" ++ format2dp w)
            { fare_id := "fare_" ++ format2dp w
              price := format2dp w
              currency_type := "INR"
              payment_method := 0
              transfers := ""
              agency_id := "1" } from rfl]
    rw [mem_keys_dict_insert]
    simp only [List.mem_cons]
    constructor
    · rintro ((h | h) | ⟨v, hv, rfl⟩)
      · exact Or.inl h
      · exact Or.inr ⟨w, Or.inl rfl, h⟩
      · exact Or.inr ⟨v, Or.inr hv, rfl⟩
    · rintro (h | ⟨v, (rfl | hv), rfl⟩)
      · exact Or.inl (Or.inl h)
      · exact Or.inl (Or.inr rfl)
      · exact Or.inr ⟨v, hv, rfl⟩

theorem nodup_keys_attrs_fold (vs : List ℚ) :
    ∀ (acc : List (String × FareAttr)), (acc.map (fun p => p.1)).Nodup →
      ((vs.foldl (fun acc v =>
          add_fare_attribute acc ("fare_" ++ format2dp v) v) acc).map (fun p => p.1)).Nodup := by
  induction vs with
  | nil => intro acc h; exact h
  | cons w ws ih =>
    intro acc h
    rw [List.foldl_cons]
    exact ih _ (nodup_keys_dict_insert _ _ _ h)

theorem dict_get_isSome_of_mem_keys {β : Type} (l : List (String × β)) (k : String)
    (h : k ∈ l.map (fun p => p.1)) :
    ∃ b, dict_get l k = some b := by
  obtain ⟨p, hp, hpk⟩ := List.mem_map.1 h
  have hex : ∃ x, x ∈ l ∧ (x.1 == k) = true := ⟨p, hp, by simpa using hpk⟩
  obtain ⟨q, hq⟩ := Option.isSome_iff_exists.1 (List.find?_isSome.2 hex)
  exact ⟨q.2, by rw [dict_get, hq]; rfl⟩

theorem dict_get_mem_values {β : Type} (l : List (String × β)) (k : String) (b : β)
    (h : dict_get l k = some b) :
    b ∈ l.map (fun p => p.2) := by
  rw [dict_get] at h
  cases hf : l.find? (fun p => p.1 == k) with
  | none => rw [hf] at h; simp at h
  | some q =>
    rw [hf] at h
    simp only [Option.map_some', Option.some_inj] at h
    rw [← h]
    exact List.mem_map.2 ⟨q, List.mem_of_find?_eq_some hf, rfl⟩

theorem make_rule_fare_id (sc : List (String × String)) (cache : List (String × ℚ))
    (rid : String) (p : String × String) (r : FareRule)
    (h : make_rule sc cache rid p = some r) :
    ∃ v ∈ cache.map (fun q => q.2), r.fare_id = "fare_" ++ format2dp v := by
  unfold make_rule at h
  split at h
  · split at h
    · simp at h
    · split at h
      · rename_i v hv
        refine ⟨v, dict_get_mem_values _ _ _ hv, ?_⟩
        simp only [Option.some_inj] at h
        rw [← h]
      · simp at h
  · simp at h

/-- C8: every fare rule emitted by `add_fares` carries a fare id for which a
fare attribute exists in the registry, and fare identity is the formatted
2-decimal string: two observed fare values with the same formatting share the
fare id and collapse to a single fare-attribute entry. -/
theorem add_fares_fare_ids (sc : List (String × String)) (cache : List (String × ℚ))
    (rsm : List (String × List String)) :
    (∀ r ∈ (add_fares sc cache rsm).2,
      ∃ a, dict_get (add_fares sc cache rsm).1 r.fare_id = some a) ∧
    (∀ v1 v2, v1 ∈ cache.map (fun p => p.2) → v2 ∈ cache.map (fun p => p.2) →
      format2dp v1 = format2dp v2 →
      ("fare_" ++ format2dp v1 = "fare_" ++ format2dp v2) ∧
      ((add_fares sc cache rsm).1.countP
        (fun p => p.1 == "fare_" ++ format2dp v1)) = 1) := by
  have hattrs : (add_fares sc cache rsm).1
      = ((cache.map (fun p => p.2)).dedup).foldl
          (fun acc v => add_fare_attribute acc ("fare_" ++ format2dp v) v) [] := rfl
  have hrules : (add_fares sc cache rsm).2
      = rsm.flatMap (fun rs => (stop_pairs rs.2).filterMap (make_rule sc cache rs.1)) := rfl
  have hkey : ∀ v ∈ cache.map (fun p => p.2),
      ("fare_" ++ format2dp v) ∈ (add_fares sc cache rsm).1.map (fun p => p.1) := by
    intro v hv
    rw [hattrs, mem_keys_attrs_fold]
    exact Or.inr ⟨v, List.mem_dedup.2 hv, rfl⟩
  constructor
  · intro r hr
    rw [hrules] at hr
    obtain ⟨rs, _, hr2⟩ := List.mem_flatMap.1 hr
    obtain ⟨p, _, hmk⟩ := List.mem_filterMap.1 hr2
    obtain ⟨v, hv, hfid⟩ := make_rule_fare_id sc cache rs.1 p r hmk
    rw [hfid]
    exact dict_get_isSome_of_mem_keys _ _ (hkey v hv)
  · intro v1 v2 h1 _ hf
    refine ⟨by rw [hf], ?_⟩
    have hnod : ((add_fares sc cache rsm).1.map (fun p => p.1)).Nodup := by
      rw [hattrs]
      exact nodup_keys_attrs_fold _ [] (by simp)
    have hmem := hkey v1 h1
    have hcnt : (add_fares sc cache rsm).1.countP
        (fun p => p.1 == "fare_" ++ format2dp v1)
        = ((add_fares sc cache rsm).1.map (fun p => p.1)).count ("fare_" ++ format2dp v1) := by
      rw [List.count, List.countP_map]
      rfl
    rw [hcnt]
    have hle := List.nodup_iff_count_le_one.1 hnod ("fare_" ++ format2dp v1)
    have hge := List.count_pos_iff.2 hmem
    omega

theorem format2dp_ex1 : format2dp ((10001:ℚ)/1000) = "10.00" := by
  have h1 : round_half_even ((10001:ℚ)/1000 * 100) = 1000 := by
    rw [round_half_even]
    have hx : ((10001:ℚ)/1000) * 100 = 10001/10 := by norm_num
    rw [hx]
    have hfl : (⌊(10001/10 : ℚ)⌋ : ℤ) = 1000 := by norm_num
    rw [hfl, if_neg (by norm_num), round_eq]
    norm_num
  simp only [format2dp]
  rw [h1]
  decide

theorem format2dp_ex2 : format2dp ((10004:ℚ)/1000) = "10.00" := by
  have h1 : round_half_even ((10004:ℚ)/1000 * 100) = 1000 := by
    rw [round_half_even]
    have hx : ((10004:ℚ)/1000) * 100 = 5002/5 := by norm_num
    rw [hx]
    have hfl : (⌊(5002/5 : ℚ)⌋ : ℤ) = 1000 := by norm_num
    rw [hfl, if_neg (by norm_num), round_eq]
    norm_num
  simp only [format2dp]
  rw [h1]
  decide

/-- C8 (witness): two cached fares 10.001 and 10.004 both format to "10.00";
the single emitted rule's fare id resolves to an attribute, the two values get
the same fare id, and exactly one attribute entry carries that id. -/
theorem add_fares_fare_ids_example :
    (∃ a, dict_get (add_fares [("101", "CA"), ("102", "CB")]
          [("CA_CB", (10001:ℚ)/1000), ("CB_CA", (10004:ℚ)/1000)]
          [("R1", ["101", "102"])]).1
        (FareRule.mk ("fare_" ++ format2dp ((10001:ℚ)/1000)) "R1" "101" "102").fare_id
        = some a) ∧
    ("fare_" ++ format2dp ((10001:ℚ)/1000) = "fare_" ++ format2dp ((10004:ℚ)/1000)) ∧
    ((add_fares [("101", "CA"), ("102", "CB")]
          [("CA_CB", (10001:ℚ)/1000), ("CB_CA", (10004:ℚ)/1000)]
          [("R1", ["101", "102"])]).1.countP
        (fun p => p.1 == "fare_" ++ format2dp ((10001:ℚ)/1000))) = 1 := by
  have h := add_fares_fare_ids [("101", "CA"), ("102", "CB")]
    [("CA_CB", (10001:ℚ)/1000), ("CB_CA", (10004:ℚ)/1000)] [("R1", ["101", "102"])]
  have hf : format2dp ((10001:ℚ)/1000) = format2dp ((10004:ℚ)/1000) := by
    rw [format2dp_ex1, format2dp_ex2]
  have hmem : FareRule.mk ("fare_" ++ format2dp ((10001:ℚ)/1000)) "R1" "101" "102"
      ∈ (add_fares [("101", "CA"), ("102", "CB")]
          [("CA_CB", (10001:ℚ)/1000), ("CB_CA", (10004:ℚ)/1000)]
          [("R1", ["101", "102"])]).2 := by
    rw [show (add_fares [("101", "CA"), ("102", "CB")]
          [("CA_CB", (10001:ℚ)/1000), ("CB_CA", (10004:ℚ)/1000)]
          [("R1", ["101", "102"])]).2
        = [FareRule.mk ("fare_" ++ format2dp ((10001:ℚ)/1000)) "R1" "101" "102"] from rfl]
    exact List.mem_singleton_self _
  have h1 : (10001:ℚ)/1000 ∈ ([("CA_CB", (10001:ℚ)/1000),
      ("CB_CA", (10004:ℚ)/1000)]).map (fun p => p.2) := by simp
  have h2 : (10004:ℚ)/1000 ∈ ([("CA_CB", (10001:ℚ)/1000),
      ("CB_CA", (10004:ℚ)/1000)]).map (fun p => p.2) := by simp
  exact ⟨h.1 _ hmem, (h.2 _ _ h1 h2 hf).1, (h.2 _ _ h1 h2 hf).2⟩
